import Mathlib

/-!
Shallow embedding of the log-skeleton relationship-evaluation engine
(`src/components/logic/relationships.py` and
`src/components/logic/log_skeleton.py`).

Events are records carrying an activity identifier (the `concept:name`
field).  Traces are ordered lists of events, a log is an ordered list of
traces.  The two trace-extension sentinels are process-wide constant
events whose identifiers are reserved strings distinct from each other.
The Python float `noise_threshold` is modelled as a rational number; the
FORALL ratio test `res / total_traces >= 1 - noise_threshold` is real
division in ℚ.  Python runtime errors (`ZeroDivisionError` on an empty
log in FORALL mode, `ValueError` from `min([])`/`max([])` in the counter,
`TypeError` on a missing activity universe) are modelled by `Option`
(`none` = the call raises) and `Except`.
-/

/-- An event: a record with the `concept:name` identifier field. -/
structure Event where
  concept_name : String
deriving DecidableEq, Repr

/-- Sentinel event prepended to extended traces (`TRACE_START` in
`relationships.py`, a process-wide unique identifier). -/
def TRACE_START : Event := ⟨"__trace-start-sentinel__"⟩

/-- Sentinel event appended to extended traces (`TRACE_END`). -/
def TRACE_END : Event := ⟨"__trace-end-sentinel__"⟩

/-- `Relationship.activity_concept_name`: extract the identifier of an event. -/
def activity_concept_name (e : Event) : String := e.concept_name

/-- `Relationship.is_start`. -/
def is_start (a : String) : Bool := a == activity_concept_name TRACE_START

/-- `Relationship.is_end`. -/
def is_end (a : String) : Bool := a == activity_concept_name TRACE_END

/-- `Relationship.is_extension_activity`. -/
def is_extension_activity (a : String) : Bool := is_start a || is_end a

/-- `Relationship.Mode`: quantifier of the evaluation skeleton. -/
inductive Mode where
  | FORALL
  | EXISTS
deriving DecidableEq, Repr

/-- The state a `Relationship` instance holds after a successful
`__init__`: the log, the activity universe, the noise threshold, the
quantifier mode and the extension flag. -/
structure RelState where
  log : List (List Event)
  activities : List String
  noise_threshold : ℚ
  mode : Mode
  include_extenstions : Bool
deriving DecidableEq, Repr

/-- The `log` argument of `Relationship.__init__`: either a plain log or
a `(log, activity_set)` tuple as produced by the XES importer. -/
inductive LogInput where
  | plain (log : List (List Event))
  | paired (log : List (List Event)) (activities : List String)
deriving DecidableEq, Repr

/-- `Relationship.__init__`: a tuple input carries its own activity
universe; a plain log requires `all_activities`, otherwise the
constructor raises (`TypeError('all_activs should not be None!')`). -/
def Relationship.init (log : LogInput) (all_activities : Option (List String))
    (noise_threshold : ℚ) (mode : Mode) (include_extenstions : Bool) :
    Except String RelState :=
  match log with
  | .paired l acts => .ok ⟨l, acts, noise_threshold, mode, include_extenstions⟩
  | .plain l =>
    match all_activities with
    | none => .error "all_activs should not be None!"
    | some acts => .ok ⟨l, acts, noise_threshold, mode, include_extenstions⟩

/-- `Relationship.is_empty`. -/
def trace_is_empty (trace : List String) : Bool := trace.length == 0

/-- `Relationship.project_trace`: keep the events whose identifier is in
`elements`, in order, mapped to their identifiers. -/
def project_trace (trace : List Event) (elements : List String) : List String :=
  (trace.filter (fun ac => decide (activity_concept_name ac ∈ elements))).map
    (fun ac => activity_concept_name ac)

/-- `Relationship.subtrace_count`: number of contiguous windows of the
trace's identifier sequence equal to `subtrace` (0 for an empty pattern). -/
def subtrace_count (trace : List Event) (subtrace : List String) : Nat :=
  if subtrace.length = 0 then 0
  else
    let tr := trace.map (fun ac => activity_concept_name ac)
    (List.range (tr.length - subtrace.length + 1)).countP
      (fun index => decide ((tr.drop index).take subtrace.length = subtrace))

/-- `Relationship.create_relation_superset`: the Cartesian product
activities × activities (iteration order of the stored collection). -/
def create_relation_superset (activities : List String) : List (String × String) :=
  activities.flatMap (fun a1 => activities.map (fun a2 => (a1, a2)))

/-- `NonReflexiveRelationship.create_relation_superset`: the product with
all `(x, x)` pairs removed before predicate evaluation. -/
def nonreflexive_superset (activities : List String) : List (String × String) :=
  (create_relation_superset activities).filter (fun x => x.1 != x.2)

/-- The candidate source used by `apply`: plain product, or the
non-reflexive filtering for `NonReflexiveRelationship` subclasses. -/
def relation_superset (nonreflexive : Bool) (activities : List String) :
    List (String × String) :=
  if nonreflexive then nonreflexive_superset activities
  else create_relation_superset activities

/-- `Relationship.apply_to_trace`: the relation predicate, forced to
`false` when extensions are excluded and either activity is a sentinel. -/
def apply_to_trace (st : RelState)
    (pair_matches : List Event → String → String → Bool)
    (trace : List Event) (a1 a2 : String) : Bool :=
  if pair_matches trace a1 a2 then
    if !st.include_extenstions &&
        (is_extension_activity a1 || is_extension_activity a2) then
      false
    else
      true
  else
    false

/-- `Relationship.apply`: the generic two-mode aggregation.  `pair_matches` is
the subclass's `activity_pair_matches`; `nonreflexive` selects the
superset override.  FORALL divides the per-pair satisfied-trace count by
`len(self.log)`: with zero traces and a nonempty candidate set Python
raises `ZeroDivisionError`, modelled as `none`. -/
def Relationship.apply (pair_matches : List Event → String → String → Bool)
    (nonreflexive : Bool) (st : RelState) : Option (List (String × String)) :=
  let source := relation_superset nonreflexive st.activities
  let total_traces := st.log.length
  match st.mode with
  | Mode.FORALL =>
    if total_traces = 0 ∧ source ≠ [] then
      none
    else
      some (source.filter (fun p =>
        let res := st.log.countP (fun trace => apply_to_trace st pair_matches trace p.1 p.2)
        decide ((1 : ℚ) - st.noise_threshold ≤ (res : ℚ) / (total_traces : ℚ))))
  | Mode.EXISTS =>
    some (source.filter (fun p =>
      st.log.any (fun trace => apply_to_trace st pair_matches trace p.1 p.2)))

/-- `Next_One_Way.activity_pair_matches`: the contiguous subsequence
`[a1, a2]` occurs in the trace. -/
def next_one_way_matches (trace : List Event) (a1 a2 : String) : Bool :=
  decide (subtrace_count trace [a1, a2] > 0)

/-- `Never_Together.activity_pair_matches`. -/
def never_together_matches (trace : List Event) (a1 a2 : String) : Bool :=
  trace_is_empty (project_trace trace [a1]) || trace_is_empty (project_trace trace [a2])

/-- `Equivalence.activity_pair_matches`: equal per-trace frequencies. -/
def equivalence_matches (trace : List Event) (a1 a2 : String) : Bool :=
  (project_trace trace [a1]).length == (project_trace trace [a2]).length

/-- `Always_Before.activity_pair_matches` (Python `or` short-circuits,
so `first(projection2)` is only reached when `projection2` is nonempty;
`head? == some a2` has the same value). -/
def always_before_matches (trace : List Event) (a1 a2 : String) : Bool :=
  let projection1 := project_trace trace [a1]
  let projection2 := project_trace trace [a1, a2]
  trace_is_empty projection1 || (projection2.head? == some a2)

/-- `AlwaysAfter.activity_pair_matches`. -/
def always_after_matches (trace : List Event) (a1 a2 : String) : Bool :=
  if a1 == a2 then false
  else
    let activity_projection := project_trace trace [a1, a2]
    !(decide (a1 ∈ activity_projection)) || (activity_projection.getLast? == some a2)

/-- `Next_One_Way.apply` as instantiated by the orchestrator (default
mode `EXISTS`, plain superset). -/
def Next_One_Way.apply (log : List (List Event)) (acts : List String)
    (t : ℚ) (ext : Bool) : Option (List (String × String)) :=
  Relationship.apply next_one_way_matches false ⟨log, acts, t, Mode.EXISTS, ext⟩

/-- `Next_Both_Ways.apply`: evaluate Next-One-Way fully, then keep a pair
iff its reverse is also present.  No independent trace scan. -/
def Next_Both_Ways.apply (log : List (List Event)) (acts : List String)
    (t : ℚ) (ext : Bool) : Option (List (String × String)) :=
  (Next_One_Way.apply log acts t ext).map (fun next_one =>
    next_one.filter (fun tup => decide ((tup.2, tup.1) ∈ next_one)))

/-- `Never_Together` as instantiated by the orchestrator (FORALL,
non-reflexive superset). -/
def Never_Together.apply (log : List (List Event)) (acts : List String)
    (t : ℚ) (ext : Bool) : Option (List (String × String)) :=
  Relationship.apply never_together_matches true ⟨log, acts, t, Mode.FORALL, ext⟩

/-- `Equivalence` as instantiated by the orchestrator (FORALL, plain
superset). -/
def Equivalence.apply (log : List (List Event)) (acts : List String)
    (t : ℚ) (ext : Bool) : Option (List (String × String)) :=
  Relationship.apply equivalence_matches false ⟨log, acts, t, Mode.FORALL, ext⟩

/-- `Always_Before` as instantiated by the orchestrator. -/
def Always_Before.apply (log : List (List Event)) (acts : List String)
    (t : ℚ) (ext : Bool) : Option (List (String × String)) :=
  Relationship.apply always_before_matches true ⟨log, acts, t, Mode.FORALL, ext⟩

/-- `AlwaysAfter` as instantiated by the orchestrator. -/
def AlwaysAfter.apply (log : List (List Event)) (acts : List String)
    (t : ℚ) (ext : Bool) : Option (List (String × String)) :=
  Relationship.apply always_after_matches true ⟨log, acts, t, Mode.FORALL, ext⟩

/-- `min` of a Python list of naturals.  Python raises `ValueError` on an
empty list; callers guard that case with `none`, so the `[]` branch here
is unreachable in the embedding of `Counter.apply`. -/
def list_min : List Nat → Nat
  | [] => 0
  | x :: xs => xs.foldl Nat.min x

/-- `max` of a Python list of naturals (same `ValueError` remark). -/
def list_max : List Nat → Nat
  | [] => 0
  | x :: xs => xs.foldl Nat.max x

/-- `Counter.apply`: per activity, the list of per-trace occurrence
counts and its sum/min/max.  On a zero-trace log with a nonempty
activity universe, Python's `min([])` raises `ValueError`: `none`. -/
def Counter.apply (st : RelState) : Option (List (String × Nat × Nat × Nat)) :=
  if st.log.length = 0 ∧ st.activities ≠ [] then
    none
  else
    some (st.activities.map (fun act =>
      let freq := st.log.map (fun trace => (project_trace trace [act]).length)
      (act, freq.sum, list_min freq, list_max freq)))

/-- One relation's entry in the log-skeleton model: a pair relation or
the counter summary (`none` = that evaluation raised). -/
inductive RelResult where
  | pairs (r : Option (List (String × String)))
  | counts (c : Option (List (String × Nat × Nat × Nat)))
deriving DecidableEq, Repr

/-- `Log_Skeleton.__init__`: stores the inputs and clamps the noise
threshold to `[0, 1]` via `min(1.0, max(0.0, noise_threshold))`. -/
structure Log_Skeleton where
  log : List (List Event)
  all_activities : List String
  include_trace_extensions : Bool
  noise_threshold : ℚ
deriving DecidableEq, Repr

/-- The constructor of `Log_Skeleton`. -/
def Log_Skeleton.init (log : List (List Event)) (all_activities : List String)
    (noise_threshold : ℚ) (include_trace_extensions : Bool) : Log_Skeleton :=
  ⟨log, all_activities, include_trace_extensions,
    min (1 : ℚ) (max (0 : ℚ) noise_threshold)⟩

/-- `Log_Skeleton.apply`: run all seven relations with the stored
(clamped) threshold and assemble the name → result map. -/
def Log_Skeleton.apply (sk : Log_Skeleton) : List (String × RelResult) :=
  [("always_before", .pairs (Always_Before.apply sk.log sk.all_activities
      sk.noise_threshold sk.include_trace_extensions)),
   ("always_after", .pairs (AlwaysAfter.apply sk.log sk.all_activities
      sk.noise_threshold sk.include_trace_extensions)),
   ("equivalence", .pairs (Equivalence.apply sk.log sk.all_activities
      sk.noise_threshold sk.include_trace_extensions)),
   ("never_together", .pairs (Never_Together.apply sk.log sk.all_activities
      sk.noise_threshold sk.include_trace_extensions)),
   ("next_both_ways", .pairs (Next_Both_Ways.apply sk.log sk.all_activities
      sk.noise_threshold sk.include_trace_extensions)),
   ("next_one_way", .pairs (Next_One_Way.apply sk.log sk.all_activities
      sk.noise_threshold sk.include_trace_extensions)),
   ("counter", .counts (Counter.apply ⟨sk.log, sk.all_activities,
      sk.noise_threshold, Mode.FORALL, sk.include_trace_extensions⟩))]

/-!  ## Shared helper lemmas  -/

/-- Membership in the Cartesian-product candidate set. -/
lemma mem_create_relation_superset {acts : List String} {p : String × String} :
    p ∈ create_relation_superset acts ↔ p.1 ∈ acts ∧ p.2 ∈ acts := by
  cases p with
  | mk a b =>
    simp [create_relation_superset]

/-- Membership in the candidate set, covering the non-reflexive override. -/
lemma mem_relation_superset {nr : Bool} {acts : List String} {p : String × String} :
    p ∈ relation_superset nr acts ↔
      p.1 ∈ acts ∧ p.2 ∈ acts ∧ (nr = true → p.1 ≠ p.2) := by
  cases nr with
  | false =>
    simp [relation_superset, mem_create_relation_superset]
  | true =>
    simp [relation_superset, nonreflexive_superset, List.mem_filter,
      mem_create_relation_superset, bne_iff_ne, and_assoc]

/-- In FORALL mode a defined result is the ratio-filtered candidate set, and
definedness forces the candidate set to be empty whenever the log is empty. -/
lemma apply_forall_some {pm : List Event → String → String → Bool} {nr : Bool}
    {st : RelState} {r : List (String × String)}
    (hmode : st.mode = Mode.FORALL)
    (hr : Relationship.apply pm nr st = some r) :
    r = (relation_superset nr st.activities).filter (fun p =>
        decide ((1 : ℚ) - st.noise_threshold ≤
          ((st.log.countP (fun trace => apply_to_trace st pm trace p.1 p.2) : ℚ) /
            (st.log.length : ℚ)))) ∧
    (st.log.length = 0 → relation_superset nr st.activities = []) := by
  rw [Relationship.apply, hmode] at hr
  by_cases hguard : st.log.length = 0 ∧ relation_superset nr st.activities ≠ []
  · simp [hguard] at hr
  · simp only [hguard, if_false, Option.some.injEq] at hr
    refine ⟨hr.symm, fun hlen => ?_⟩
    by_contra hsrc
    exact hguard ⟨hlen, hsrc⟩

/-- In EXISTS mode the result is always defined: the any-filtered candidates. -/
lemma apply_exists_eq (pm : List Event → String → String → Bool) (nr : Bool)
    (st : RelState) (hmode : st.mode = Mode.EXISTS) :
    Relationship.apply pm nr st =
      some ((relation_superset nr st.activities).filter (fun p =>
        st.log.any (fun trace => apply_to_trace st pm trace p.1 p.2))) := by
  rw [Relationship.apply, hmode]

/-- The extension filter forces the per-trace predicate to `false` on any
pair touching a sentinel when extensions are excluded. -/
lemma apply_to_trace_sentinel {st : RelState}
    {pm : List Event → String → String → Bool} {trace : List Event}
    {a1 a2 : String} (hext : st.include_extenstions = false)
    (h : is_extension_activity a1 = true ∨ is_extension_activity a2 = true) :
    apply_to_trace st pm trace a1 a2 = false := by
  rw [apply_to_trace, hext]
  rcases h with h | h <;> simp [h]

/-- `apply_to_trace` is symmetric whenever the underlying predicate is. -/
lemma apply_to_trace_comm {st : RelState}
    {pm : List Event → String → String → Bool} {trace : List Event}
    (a1 a2 : String) (hpm : pm trace a1 a2 = pm trace a2 a1) :
    apply_to_trace st pm trace a1 a2 = apply_to_trace st pm trace a2 a1 := by
  rw [apply_to_trace, apply_to_trace, hpm, Bool.or_comm]

/-- The equivalence predicate is symmetric in its two activities. -/
lemma equivalence_matches_comm (trace : List Event) (a1 a2 : String) :
    equivalence_matches trace a1 a2 = equivalence_matches trace a2 a1 := by
  rw [equivalence_matches, equivalence_matches]
  by_cases h : (project_trace trace [a1]).length = (project_trace trace [a2]).length
  · rw [h]
  · simp [h, Ne.symm h]

/-- The equivalence predicate holds on every reflexive pair. -/
lemma equivalence_matches_refl (trace : List Event) (a : String) :
    equivalence_matches trace a a = true := by
  simp [equivalence_matches]

/-- `project_trace` onto one activity counts that activity's events. -/
lemma project_trace_length (trace : List Event) (a : String) :
    (project_trace trace [a]).length =
      trace.countP (fun e => decide (activity_concept_name e ∈ [a])) := by
  simp [project_trace, List.countP_eq_length_filter]

/-- `min` of a Python list bounds its head seed from below. -/
lemma foldl_min_le_init (xs : List Nat) (a : Nat) : xs.foldl Nat.min a ≤ a := by
  induction xs generalizing a with
  | nil => simp
  | cons x xs ih =>
    simp only [List.foldl_cons]
    exact le_trans (ih (Nat.min a x)) (Nat.min_le_left a x)

/-- `min` of a Python list bounds every traversed element from below. -/
lemma foldl_min_le_mem (xs : List Nat) (a : Nat) :
    ∀ y ∈ xs, xs.foldl Nat.min a ≤ y := by
  induction xs generalizing a with
  | nil => simp
  | cons x xs ih =>
    intro y hy
    simp only [List.mem_cons] at hy
    rcases hy with rfl | hy
    · exact le_trans (foldl_min_le_init xs (Nat.min a y)) (Nat.min_le_right a y)
    · exact ih (Nat.min a x) y hy

/-- `list_min` is a lower bound of a nonempty list. -/
lemma list_min_le (l : List Nat) : ∀ y ∈ l, list_min l ≤ y := by
  cases l with
  | nil => simp
  | cons x xs =>
    intro y hy
    simp only [List.mem_cons] at hy
    rcases hy with rfl | hy
    · exact foldl_min_le_init xs y
    · exact foldl_min_le_mem xs x y hy

/-- `max` of a Python list bounds its head seed from above. -/
lemma init_le_foldl_max (xs : List Nat) (a : Nat) : a ≤ xs.foldl Nat.max a := by
  induction xs generalizing a with
  | nil => simp
  | cons x xs ih =>
    simp only [List.foldl_cons]
    exact le_trans (Nat.le_max_left a x) (ih (Nat.max a x))

/-- `max` of a Python list bounds every traversed element from above. -/
lemma mem_le_foldl_max (xs : List Nat) (a : Nat) :
    ∀ y ∈ xs, y ≤ xs.foldl Nat.max a := by
  induction xs generalizing a with
  | nil => simp
  | cons x xs ih =>
    intro y hy
    simp only [List.mem_cons] at hy
    rcases hy with rfl | hy
    · exact le_trans (Nat.le_max_right a y) (init_le_foldl_max xs (Nat.max a y))
    · exact ih (Nat.max a x) y hy

/-- `list_max` is an upper bound of a nonempty list. -/
lemma le_list_max (l : List Nat) : ∀ y ∈ l, y ≤ list_max l := by
  cases l with
  | nil => simp
  | cons x xs =>
    intro y hy
    simp only [List.mem_cons] at hy
    rcases hy with rfl | hy
    · exact init_le_foldl_max xs y
    · exact mem_le_foldl_max xs x y hy

/-- A uniform lower bound on the elements bounds the sum from below. -/
lemma length_mul_le_sum (l : List Nat) (m : Nat) (h : ∀ y ∈ l, m ≤ y) :
    l.length * m ≤ l.sum := by
  induction l with
  | nil => simp
  | cons x xs ih =>
    simp only [List.length_cons, List.sum_cons, Nat.succ_mul]
    have hx : m ≤ x := h x (by simp)
    have hxs : xs.length * m ≤ xs.sum := ih (fun y hy => h y (by simp [hy]))
    omega

/-- A uniform upper bound on the elements bounds the sum from above. -/
lemma sum_le_length_mul (l : List Nat) (M : Nat) (h : ∀ y ∈ l, y ≤ M) :
    l.sum ≤ l.length * M := by
  induction l with
  | nil => simp
  | cons x xs ih =>
    simp only [List.length_cons, List.sum_cons, Nat.succ_mul]
    have hx : x ≤ M := h x (by simp)
    have hxs : xs.sum ≤ xs.length * M := ih (fun y hy => h y (by simp [hy]))
    omega

/-!  ## Claim theorems  -/

/-- C2: the FORALL-mode per-pair ratio aggregation on a log with zero
traces does not have a defined result: as soon as there is at least one
candidate pair, `res / total_traces` divides by zero and the evaluation
raises (modelled as `none`).  This theorem evaluates the code at the
failing configuration. -/
theorem forall_empty_log_division_by_zero
    (pm : List Event → String → String → Bool) (nr : Bool) (st : RelState)
    (hmode : st.mode = Mode.FORALL) (hlog : st.log = [])
    (hsrc : relation_superset nr st.activities ≠ []) :
    Relationship.apply pm nr st = none := by
  rw [Relationship.apply, hmode]
  simp [hlog, hsrc]

/-- Witness for C2: the Equivalence relation (FORALL) on the empty log
with universe `{"a"}` raises. -/
theorem forall_empty_log_division_by_zero_witness :
    Relationship.apply equivalence_matches false
      ⟨[], ["a"], 0, Mode.FORALL, false⟩ = none :=
  forall_empty_log_division_by_zero equivalence_matches false
    ⟨[], ["a"], 0, Mode.FORALL, false⟩ rfl rfl (by decide)

/-- C3: constructing a relation evaluation from a plain (non-tuple) log
with no activity universe fails at construction time with the
configuration error; with a universe supplied, construction succeeds. -/
theorem init_universe_required (l : List (List Event)) (acts : List String)
    (t : ℚ) (m : Mode) (ext : Bool) :
    Relationship.init (.plain l) none t m ext =
      .error "all_activs should not be None!" ∧
    Relationship.init (.plain l) (some acts) t m ext =
      .ok ⟨l, acts, t, m, ext⟩ :=
  ⟨rfl, rfl⟩

/-- C10: on a zero-trace log with a nonempty activity universe the
Activity-Counter `apply` raises (Python `min([])`/`max([])`) instead of
returning a summary. -/
theorem counter_empty_log_error (acts : List String) (t : ℚ) (m : Mode)
    (e : Bool) (hacts : acts ≠ []) :
    Counter.apply ⟨[], acts, t, m, e⟩ = none := by
  simp [Counter.apply, hacts]

/-- Witness for C10 at the concrete universe `{"a"}`. -/
theorem counter_empty_log_error_witness :
    Counter.apply ⟨[], ["a"], 0, Mode.FORALL, false⟩ = none :=
  counter_empty_log_error ["a"] 0 Mode.FORALL false (by decide)

/-- C5: the Log_Skeleton orchestrator stores and uses the effective
threshold `min(1, max(0, input))`; in-range inputs are kept verbatim,
the stored value is always in `[0, 1]`, out-of-range inputs are clamped
(construction is total, never an error), and running the orchestrator on
any input behaves exactly as on the clamped input. -/
theorem log_skeleton_clamps_noise_threshold (log : List (List Event))
    (acts : List String) (t : ℚ) (ext : Bool) :
    (Log_Skeleton.init log acts t ext).noise_threshold = min 1 (max 0 t) ∧
    (0 ≤ t → t ≤ 1 → (Log_Skeleton.init log acts t ext).noise_threshold = t) ∧
    0 ≤ (Log_Skeleton.init log acts t ext).noise_threshold ∧
    (Log_Skeleton.init log acts t ext).noise_threshold ≤ 1 ∧
    (Log_Skeleton.init log acts t ext).apply =
      (Log_Skeleton.init log acts (min 1 (max 0 t)) ext).apply := by
  have hge : (0 : ℚ) ≤ min 1 (max 0 t) :=
    le_min zero_le_one (le_max_left 0 t)
  have hle : min (1 : ℚ) (max 0 t) ≤ 1 := min_le_left 1 (max 0 t)
  have hidem : min (1 : ℚ) (max 0 (min 1 (max 0 t))) = min 1 (max 0 t) := by
    rw [max_eq_right hge, min_eq_right hle]
  refine ⟨rfl, fun h0 h1 => ?_, hge, hle, ?_⟩
  · show min (1 : ℚ) (max 0 t) = t
    rw [max_eq_right h0, min_eq_right h1]
  · have : Log_Skeleton.init log acts t ext =
        Log_Skeleton.init log acts (min 1 (max 0 t)) ext := by
      show (⟨log, acts, ext, min 1 (max 0 t)⟩ : Log_Skeleton) =
        ⟨log, acts, ext, min 1 (max 0 (min 1 (max 0 t)))⟩
      rw [hidem]
    rw [this]

/-- Witness for C5: an in-range threshold is kept verbatim. -/
theorem log_skeleton_clamps_noise_threshold_witness :
    (Log_Skeleton.init [] [] (1 / 2) false).noise_threshold = 1 / 2 :=
  (log_skeleton_clamps_noise_threshold [] [] (1 / 2) false).2.1
    (by norm_num) (by norm_num)

/-- C1 counterexample: with `include_extensions = false` but
`noise_threshold = 1` (a value inside [0, 1]), a FORALL relation retains
a pair both of whose elements are the trace-start sentinel, because the
ratio test `0 >= 1 - 1` succeeds even though the extension filter forced
the predicate to false on every trace. -/
theorem sentinel_pair_retained_at_threshold_one :
    is_extension_activity TRACE_START.concept_name = true ∧
    Equivalence.apply [[⟨"x"⟩]] [TRACE_START.concept_name] 1 false =
      some [(TRACE_START.concept_name, TRACE_START.concept_name)] := by
  constructor
  · rfl
  · simp [Equivalence.apply, Relationship.apply, relation_superset,
      create_relation_superset, apply_to_trace, equivalence_matches,
      project_trace, activity_concept_name, is_extension_activity, is_start,
      is_end, TRACE_START, TRACE_END, List.filter, List.countP, List.countP.go]

/-- C1 (amended): with `include_extensions = false`, a pair touching a
sentinel never appears in a defined Relation Result, provided the
evaluation is existential, or is universal with `noise_threshold < 1`
(at `noise_threshold = 1` the FORALL ratio test retains every candidate
pair regardless of the extension filter). -/
theorem result_never_contains_sentinel
    (pm : List Event → String → String → Bool) (nr : Bool) (st : RelState)
    (hext : st.include_extenstions = false)
    (hok : st.mode = Mode.EXISTS ∨ st.noise_threshold < 1)
    (r : List (String × String)) (hr : Relationship.apply pm nr st = some r)
    (p : String × String) (hp : p ∈ r) :
    is_extension_activity p.1 = false ∧ is_extension_activity p.2 = false := by
  by_contra hcon
  have hsent : is_extension_activity p.1 = true ∨
      is_extension_activity p.2 = true := by
    by_cases h1 : is_extension_activity p.1 = true
    · exact Or.inl h1
    · by_cases h2 : is_extension_activity p.2 = true
      · exact Or.inr h2
      · simp only [Bool.not_eq_true] at h1 h2
        exact absurd ⟨h1, h2⟩ hcon
  have hfalse : ∀ trace, apply_to_trace st pm trace p.1 p.2 = false :=
    fun trace => apply_to_trace_sentinel hext hsent
  cases hmode : st.mode with
  | EXISTS =>
    rw [apply_exists_eq pm nr st hmode] at hr
    have hrr := Option.some.inj hr
    rw [← hrr, List.mem_filter, List.any_eq_true] at hp
    obtain ⟨-, trace, -, happ⟩ := hp
    rw [hfalse trace] at happ
    exact Bool.false_ne_true happ
  | FORALL =>
    have ht : st.noise_threshold < 1 := by
      rcases hok with h | h
      · rw [hmode] at h
        exact absurd h (by simp)
      · exact h
    obtain ⟨hrr, -⟩ := apply_forall_some hmode hr
    rw [hrr, List.mem_filter] at hp
    obtain ⟨-, hpred⟩ := hp
    have hpred2 := of_decide_eq_true hpred
    have hcount : st.log.countP
        (fun trace => apply_to_trace st pm trace p.1 p.2) = 0 := by
      rw [List.countP_eq_zero]
      intro trace _
      simp [hfalse trace]
    rw [hcount] at hpred2
    have hzero : (1 : ℚ) - st.noise_threshold ≤ 0 := by
      simpa using hpred2
    linarith

/-- Witness for C1 (amended) at a concrete EXISTS-mode evaluation. -/
theorem result_never_contains_sentinel_witness :
    is_extension_activity "a" = false ∧ is_extension_activity "b" = false :=
  result_never_contains_sentinel next_one_way_matches false
    ⟨[[⟨"a"⟩, ⟨"b"⟩]], ["a", "b"], 0, Mode.EXISTS, false⟩ rfl (Or.inl rfl)
    [("a", "b")] rfl ("a", "b") (by decide)

/-- C4: FORALL-mode evaluation on a log with at least one trace.  With
`noise_threshold = 0` a candidate pair is retained iff its
(extension-filtered) predicate holds in literally every trace; with
`noise_threshold = 1` every candidate pair (after the optional
non-reflexive filtering of the superset) is retained regardless of the
predicate. -/
theorem forall_noise_threshold_boundaries
    (pm : List Event → String → String → Bool) (nr : Bool) (st : RelState)
    (hmode : st.mode = Mode.FORALL) (hlog : st.log ≠ [])
    (r : List (String × String))
    (hr : Relationship.apply pm nr st = some r) :
    (st.noise_threshold = 0 →
      ∀ p, p ∈ r ↔ p ∈ relation_superset nr st.activities ∧
        ∀ trace ∈ st.log, apply_to_trace st pm trace p.1 p.2 = true) ∧
    (st.noise_threshold = 1 →
      ∀ p, p ∈ r ↔ p ∈ relation_superset nr st.activities) := by
  obtain ⟨hrr, -⟩ := apply_forall_some hmode hr
  subst hrr
  have hn : 0 < st.log.length := List.length_pos.mpr hlog
  have hnq : (0 : ℚ) < (st.log.length : ℚ) := by exact_mod_cast hn
  constructor
  · intro ht p
    rw [List.mem_filter]
    constructor
    · rintro ⟨hmem, hpred⟩
      have hpred2 := of_decide_eq_true hpred
      rw [ht, sub_zero] at hpred2
      have hle : (st.log.length : ℚ) ≤
          (st.log.countP (fun trace => apply_to_trace st pm trace p.1 p.2) : ℚ) :=
        (one_le_div hnq).mp hpred2
      have hle2 : st.log.length ≤
          st.log.countP (fun trace => apply_to_trace st pm trace p.1 p.2) := by
        exact_mod_cast hle
      have heq : st.log.countP
          (fun trace => apply_to_trace st pm trace p.1 p.2) = st.log.length :=
        le_antisymm (List.countP_le_length _) hle2
      exact ⟨hmem, List.countP_eq_length.mp heq⟩
    · rintro ⟨hmem, hall⟩
      refine ⟨hmem, decide_eq_true ?_⟩
      have heq : st.log.countP
          (fun trace => apply_to_trace st pm trace p.1 p.2) = st.log.length :=
        List.countP_eq_length.mpr hall
      rw [heq, ht, sub_zero, div_self (ne_of_gt hnq)]
  · intro ht p
    rw [List.mem_filter]
    constructor
    · rintro ⟨hmem, -⟩
      exact hmem
    · intro hmem
      refine ⟨hmem, decide_eq_true ?_⟩
      rw [ht, sub_self]
      exact div_nonneg (Nat.cast_nonneg _) (Nat.cast_nonneg _)

/-- Witness for C4 at a concrete FORALL evaluation with threshold 0. -/
theorem forall_noise_threshold_boundaries_witness :
    ("a", "a") ∈ [(("a" : String), ("a" : String))] :=
  ((forall_noise_threshold_boundaries equivalence_matches false
      ⟨[[⟨"a"⟩]], ["a"], 0, Mode.FORALL, false⟩ rfl (by decide) [("a", "a")]
      (by simp [Relationship.apply, relation_superset, create_relation_superset,
        apply_to_trace, equivalence_matches, project_trace, activity_concept_name,
        is_extension_activity, is_start, is_end, TRACE_START, TRACE_END,
        List.filter, List.countP, List.countP.go])).1 rfl ("a", "a")).mpr
    ⟨by decide, by decide⟩

/-- C7: EXISTS-mode evaluation always produces a defined result; a
candidate pair is retained iff at least one trace satisfies the
(extension-filtered) predicate, and the result is identical under any
change of the noise threshold alone. -/
theorem exists_mode_semantics (pm : List Event → String → String → Bool)
    (nr : Bool) (st : RelState) (hmode : st.mode = Mode.EXISTS) :
    (∃ r, Relationship.apply pm nr st = some r ∧
      ∀ p, p ∈ r ↔ p ∈ relation_superset nr st.activities ∧
        ∃ trace ∈ st.log, apply_to_trace st pm trace p.1 p.2 = true) ∧
    (∀ t2 : ℚ, Relationship.apply pm nr
        { st with noise_threshold := t2 } = Relationship.apply pm nr st) := by
  constructor
  · refine ⟨_, apply_exists_eq pm nr st hmode, ?_⟩
    intro p
    rw [List.mem_filter, List.any_eq_true]
  · intro t2
    rw [apply_exists_eq pm nr st hmode,
      apply_exists_eq pm nr { st with noise_threshold := t2 } hmode]
    rfl

/-- Witness for C7: thresholds 5 and 0 give the same EXISTS result. -/
theorem exists_mode_semantics_witness :
    Relationship.apply next_one_way_matches false
      ⟨[[⟨"a"⟩, ⟨"b"⟩]], ["a", "b"], 5, Mode.EXISTS, false⟩ =
    Relationship.apply next_one_way_matches false
      ⟨[[⟨"a"⟩, ⟨"b"⟩]], ["a", "b"], 0, Mode.EXISTS, false⟩ :=
  (exists_mode_semantics next_one_way_matches false
    ⟨[[⟨"a"⟩, ⟨"b"⟩]], ["a", "b"], 0, Mode.EXISTS, false⟩ rfl).2 5

/-- C6 counterexample: with the trace-start sentinel in the activity
universe, `include_extensions = false` and `noise_threshold = 0`, the
Equivalence result is defined but empty, so the reflexive pair of the
sentinel (an activity of the universe) is missing: Equivalence is not
reflexive on every activity of the universe for every extension setting. -/
theorem equivalence_not_reflexive_on_sentinels :
    TRACE_START.concept_name ∈ [TRACE_START.concept_name] ∧
    Equivalence.apply [[]] [TRACE_START.concept_name] 0 false = some [] := by
  refine ⟨by simp, ?_⟩
  simp [Equivalence.apply, Relationship.apply, relation_superset,
    create_relation_superset, apply_to_trace, equivalence_matches,
    project_trace, activity_concept_name, is_extension_activity, is_start,
    is_end, TRACE_START, TRACE_END, List.filter, List.countP, List.countP.go]
  norm_num

/-- C6 (amended): for every defined Equivalence result (any log, universe,
threshold `>= 0`, extension setting), the result is symmetric, and it
contains the reflexive pair `(a, a)` of every activity `a` of the
universe that is not a sentinel — of every activity whatsoever when
extensions are included. -/
theorem equivalence_reflexive_symmetric (log : List (List Event))
    (acts : List String) (t : ℚ) (ext : Bool) (ht : 0 ≤ t)
    (r : List (String × String))
    (hr : Equivalence.apply log acts t ext = some r) :
    (∀ a ∈ acts, (ext = true ∨ is_extension_activity a = false) →
      (a, a) ∈ r) ∧
    (∀ a1 a2 : String, (a1, a2) ∈ r ↔ (a2, a1) ∈ r) := by
  unfold Equivalence.apply at hr
  obtain ⟨hrr, hempty⟩ := apply_forall_some rfl hr
  subst hrr
  constructor
  · intro a ha hcase
    have hsrc : ((a, a) : String × String) ∈ relation_superset false acts := by
      rw [mem_relation_superset]
      exact ⟨ha, ha, by simp⟩
    rw [List.mem_filter]
    refine ⟨hsrc, decide_eq_true ?_⟩
    have hn : log.length ≠ 0 := by
      intro h0
      rw [hempty h0] at hsrc
      simp at hsrc
    have hall : ∀ trace ∈ log,
        apply_to_trace ⟨log, acts, t, Mode.FORALL, ext⟩ equivalence_matches
          trace a a = true := by
      intro trace _
      rw [apply_to_trace, equivalence_matches_refl]
      rcases hcase with hx | hx <;> simp [hx]
    have hcount : log.countP
        (fun trace => apply_to_trace ⟨log, acts, t, Mode.FORALL, ext⟩
          equivalence_matches trace a a) = log.length :=
      List.countP_eq_length.mpr hall
    show (1 : ℚ) - t ≤ _
    rw [hcount, div_self (by exact_mod_cast hn)]
    linarith
  · intro a1 a2
    rw [List.mem_filter, List.mem_filter]
    have hsrc : (((a1, a2) : String × String) ∈ relation_superset false acts) ↔
        (((a2, a1) : String × String) ∈ relation_superset false acts) := by
      rw [mem_relation_superset, mem_relation_superset]
      constructor <;> rintro ⟨h1, h2, -⟩ <;> exact ⟨h2, h1, by simp⟩
    have hcount : log.countP
        (fun trace => apply_to_trace ⟨log, acts, t, Mode.FORALL, ext⟩
          equivalence_matches trace a1 a2) =
        log.countP (fun trace => apply_to_trace ⟨log, acts, t, Mode.FORALL, ext⟩
          equivalence_matches trace a2 a1) := by
      apply List.countP_congr
      intro trace _
      rw [apply_to_trace_comm a1 a2 (equivalence_matches_comm trace a1 a2)]
    constructor
    · rintro ⟨hmem, hpred⟩
      refine ⟨hsrc.mp hmem, ?_⟩
      show decide ((1 : ℚ) - t ≤ _) = true
      rw [← hcount]
      exact hpred
    · rintro ⟨hmem, hpred⟩
      refine ⟨hsrc.mpr hmem, ?_⟩
      show decide ((1 : ℚ) - t ≤ _) = true
      rw [hcount]
      exact hpred

/-- Witness for C6 (amended) at a concrete one-trace log. -/
theorem equivalence_reflexive_symmetric_witness :
    ("b", "b") ∈ [(("b" : String), ("b" : String))] :=
  (equivalence_reflexive_symmetric [[⟨"b"⟩]] ["b"] 0 false (by norm_num)
    [("b", "b")]
    (by simp [Equivalence.apply, Relationship.apply, relation_superset,
      create_relation_superset, apply_to_trace, equivalence_matches,
      project_trace, activity_concept_name, is_extension_activity, is_start,
      is_end, TRACE_START, TRACE_END, List.filter, List.countP,
      List.countP.go])).1 "b" (by simp) (Or.inr rfl)

/-- C8: a defined Next-Both-Ways result is exactly the pairs of the
Next-One-Way result (same inputs) whose reverse is also present; hence
it is a subset of the Next-One-Way result and is symmetric. -/
theorem next_both_ways_subset_symmetric (log : List (List Event))
    (acts : List String) (t : ℚ) (ext : Bool)
    (one both : List (String × String))
    (hone : Next_One_Way.apply log acts t ext = some one)
    (hboth : Next_Both_Ways.apply log acts t ext = some both) :
    (∀ p : String × String, p ∈ both ↔ p ∈ one ∧ (p.2, p.1) ∈ one) ∧
    (∀ p ∈ both, p ∈ one) ∧
    (∀ a1 a2 : String, (a1, a2) ∈ both ↔ (a2, a1) ∈ both) := by
  rw [Next_Both_Ways.apply, hone] at hboth
  have hb : both = one.filter (fun tup => decide ((tup.2, tup.1) ∈ one)) :=
    (Option.some.inj hboth).symm
  subst hb
  have hmem : ∀ p : String × String,
      p ∈ one.filter (fun tup => decide ((tup.2, tup.1) ∈ one)) ↔
        p ∈ one ∧ (p.2, p.1) ∈ one := by
    intro p
    rw [List.mem_filter]
    simp
  refine ⟨hmem, fun p hp => ((hmem p).mp hp).1, fun a1 a2 => ?_⟩
  rw [hmem, hmem]
  constructor <;> rintro ⟨h1, h2⟩ <;> exact ⟨h2, h1⟩

/-- Witness for C8 at a concrete log where both directions occur. -/
theorem next_both_ways_subset_symmetric_witness :
    ("a", "b") ∈ [(("a" : String), ("b" : String)), ("b", "a")] :=
  (next_both_ways_subset_symmetric [[⟨"a"⟩, ⟨"b"⟩, ⟨"a"⟩]] ["a", "b"] 0 false
    [("a", "b"), ("b", "a")] [("a", "b"), ("b", "a")] rfl rfl).2.1
    ("a", "b") (by decide)

/-- C9: on a log with at least one trace, the Activity-Counter result is
defined, independent of the noise threshold, mode and extension setting,
and maps every activity of the universe to the sum, min and max of its
per-trace occurrence counts, where the sum equals the activity's total
occurrences across all traces and `min <= sum / trace_count <= max`. -/
theorem counter_sum_min_max (log : List (List Event)) (acts : List String)
    (t1 t2 : ℚ) (m1 m2 : Mode) (e1 e2 : Bool) (hlog : log ≠ []) :
    Counter.apply ⟨log, acts, t1, m1, e1⟩ =
      Counter.apply ⟨log, acts, t2, m2, e2⟩ ∧
    ∃ c, Counter.apply ⟨log, acts, t1, m1, e1⟩ = some c ∧
      ∀ a ∈ acts,
        (a, ((log.map (fun trace => (project_trace trace [a]).length)).sum,
             list_min (log.map (fun trace => (project_trace trace [a]).length)),
             list_max (log.map (fun trace =>
               (project_trace trace [a]).length)))) ∈ c ∧
        (log.map (fun trace => (project_trace trace [a]).length)).sum =
          (project_trace log.flatten [a]).length ∧
        (list_min (log.map (fun trace => (project_trace trace [a]).length)) : ℚ) ≤
          ((log.map (fun trace => (project_trace trace [a]).length)).sum : ℚ) /
            (log.length : ℚ) ∧
        ((log.map (fun trace => (project_trace trace [a]).length)).sum : ℚ) /
            (log.length : ℚ) ≤
          (list_max (log.map (fun trace => (project_trace trace [a]).length)) : ℚ) := by
  have hno : ¬ (log.length = 0 ∧ acts ≠ []) := by
    rintro ⟨h0, -⟩
    exact hlog (List.length_eq_zero.mp h0)
  have hnq : (0 : ℚ) < (log.length : ℚ) := by
    have := List.length_pos.mpr hlog
    exact_mod_cast this
  have happly : Counter.apply ⟨log, acts, t1, m1, e1⟩ =
      some (acts.map (fun act =>
        let freq := log.map (fun trace => (project_trace trace [act]).length)
        (act, freq.sum, list_min freq, list_max freq))) := by
    unfold Counter.apply
    rw [if_neg hno]
  refine ⟨rfl, _, happly, ?_⟩
  intro a ha
  have hfreq : (log.map (fun trace => (project_trace trace [a]).length)).length =
      log.length := List.length_map _ _
  refine ⟨?_, ?_, ?_, ?_⟩
  · exact List.mem_map_of_mem _ ha
  · simp only [project_trace_length, List.countP_flatten]
  · rw [le_div_iff₀ hnq]
    have hnat : log.length *
        list_min (log.map (fun trace => (project_trace trace [a]).length)) ≤
        (log.map (fun trace => (project_trace trace [a]).length)).sum := by
      have h := length_mul_le_sum
        (log.map (fun trace => (project_trace trace [a]).length)) _
        (list_min_le _)
      rwa [hfreq] at h
    rw [mul_comm]
    exact_mod_cast hnat
  · rw [div_le_iff₀ hnq]
    have hnat : (log.map (fun trace => (project_trace trace [a]).length)).sum ≤
        log.length *
          list_max (log.map (fun trace => (project_trace trace [a]).length)) := by
      have h := sum_le_length_mul
        (log.map (fun trace => (project_trace trace [a]).length)) _
        (le_list_max _)
      rwa [hfreq] at h
    rw [mul_comm]
    exact_mod_cast hnat

/-- Witness for C9: the counter ignores threshold, mode and extensions. -/
theorem counter_sum_min_max_witness :
    Counter.apply ⟨[[⟨"a"⟩]], ["a"], 0, Mode.FORALL, false⟩ =
      Counter.apply ⟨[[⟨"a"⟩]], ["a"], 1, Mode.EXISTS, true⟩ :=
  (counter_sum_min_max [[⟨"a"⟩]] ["a"] 0 1 Mode.FORALL Mode.EXISTS false true
    (by decide)).1
